import Mathlib

/-!
Verification of the MetaStamp stamping pipeline against its specification.

The development shallowly embeds the pipeline code:
the Format Engine (src/utils/formatPresets.ts, formatDate and
combineFormats), the Metadata Resolver and Overlay Compositor
(src/App.tsx, extractImageMetadata and processImage) and the Batch
Orchestrator (src/App.tsx, handleFiles and handleClearAll).
-/

/-- A JavaScript Date value, restricted to the accessors the code calls.
As in JavaScript, getMonth is 0-based (0 = January) while getDate,
getHours, getMinutes, getSeconds are the calendar/clock fields. -/
structure JSDate where
  getFullYear : Nat
  getMonth : Nat
  getDate : Nat
  getHours : Nat
  getMinutes : Nat
  getSeconds : Nat
deriving DecidableEq, Repr

/-- JavaScript String.prototype.replace with a plain-string pattern:
only the first (leftmost) occurrence of the pattern is replaced. -/
def listReplaceFirst (p r : List Char) : List Char → List Char
  | [] => if p.isPrefixOf ([] : List Char) then r else []
  | c :: t =>
    if p.isPrefixOf (c :: t) then r ++ (c :: t).drop p.length
    else c :: listReplaceFirst p r t

/-- String-level wrapper for listReplaceFirst. -/
def jsReplace (s pat rep : String) : String :=
  String.mk (listReplaceFirst pat.data rep.data s.data)

/-- Whether pat occurs (as a contiguous run) inside s. -/
def containsSub : List Char → List Char → Bool
  | [], p => p.isPrefixOf ([] : List Char)
  | c :: t, p => p.isPrefixOf (c :: t) || containsSub t p

/-- n.toString().padStart(2, "0") as used by formatDate. -/
def padTwo (n : Nat) : String :=
  let s := Nat.repr n
  if s.length < 2 then "0" ++ s else s

/-- MONTH_NAMES from src/utils/formatPresets.ts. -/
def MONTH_NAMES : List String :=
  ["January", "February", "March", "April", "May", "June",
   "July", "August", "September", "October", "November", "December"]

/-- MONTH_SHORT from src/utils/formatPresets.ts. -/
def MONTH_SHORT : List String :=
  ["Jan", "Feb", "Mar", "Apr", "May", "Jun",
   "Jul", "Aug", "Sep", "Oct", "Nov", "Dec"]

/-- formatDate from src/utils/formatPresets.ts: ten sequential
first-occurrence replacements, each applied to the result of the
previous one, in the order
YYYY, MMMM, MMM, MM, DD, HH, hh, mm, ss, A. -/
def formatDate (date : JSDate) (format : String) : String :=
  let hours24 := date.getHours
  let hours12 := if hours24 % 12 = 0 then 12 else hours24 % 12
  let ampm := if 12 ≤ hours24 then "PM" else "AM"
  jsReplace (jsReplace (jsReplace (jsReplace (jsReplace (jsReplace (jsReplace
    (jsReplace (jsReplace (jsReplace format
      "YYYY" (Nat.repr date.getFullYear))
      "MMMM" (MONTH_NAMES.getD date.getMonth "undefined"))
      "MMM" (MONTH_SHORT.getD date.getMonth "undefined"))
      "MM" (padTwo (date.getMonth + 1)))
      "DD" (padTwo date.getDate))
      "HH" (padTwo hours24))
      "hh" (padTwo hours12))
      "mm" (padTwo date.getMinutes))
      "ss" (padTwo date.getSeconds))
      "A" ampm

/-- combineFormats from src/utils/formatPresets.ts. -/
def combineFormats (dateFormat timeFormat : String) : String :=
  if timeFormat = "" then dateFormat else dateFormat ++ " " ++ timeFormat

/-- The token vocabulary paired with its rendering for a given date, in
the priority order the specification states (longer tokens matched
before shorter overlapping ones). -/
def tokenTable (date : JSDate) : List (String × String) :=
  [("YYYY", Nat.repr date.getFullYear),
   ("MMMM", MONTH_NAMES.getD date.getMonth "undefined"),
   ("MMM", MONTH_SHORT.getD date.getMonth "undefined"),
   ("MM", padTwo (date.getMonth + 1)),
   ("DD", padTwo date.getDate),
   ("HH", padTwo date.getHours),
   ("hh", padTwo (if date.getHours % 12 = 0 then 12
                  else date.getHours % 12)),
   ("mm", padTwo date.getMinutes),
   ("ss", padTwo date.getSeconds),
   ("A", if 12 ≤ date.getHours then "PM" else "AM")]

/-- Modelled from the spec wording of the Format Engine (claim C1):
a single left-to-right pass over the format string; at each position the
highest-priority not-yet-used token that matches is substituted and
marked used, so each token kind is replaced at most once, only at its
leftmost occurrence; every other character passes through verbatim.
The fuel argument only bounds the recursion; renderSpec supplies enough
fuel that it is never exhausted. -/
def renderSpecGo (table : List (String × String)) :
    Nat → List String → List Char → List Char
  | 0, _, s => s
  | _ + 1, _, [] => []
  | fuel + 1, used, c :: rest =>
    match table.find?
        (fun p => p.1.data.isPrefixOf (c :: rest) && !(used.contains p.1)) with
    | some p =>
        p.2.data ++
          renderSpecGo table fuel (p.1 :: used)
            (rest.drop (p.1.data.length - 1))
    | none => c :: renderSpecGo table fuel used rest

/-- The Format Engine as the specification describes it (claim C1). -/
def renderSpec (date : JSDate) (format : String) : String :=
  String.mk (renderSpecGo (tokenTable date) format.data.length [] format.data)

/-- A JavaScript value as it can appear in a decoded EXIF field: a
number, a string, or a Date object. -/
inductive JSVal where
  | num (n : Int)
  | str (s : String)
  | date (d : JSDate)
deriving DecidableEq

/-- JavaScript truthiness for a JSVal: the number 0 and the empty
string are falsy, every other modelled value is truthy. -/
def JSVal.truthy : JSVal → Bool
  | .num n => decide (n ≠ 0)
  | .str s => decide (s ≠ "")
  | .date _ => true

/-- The object returned by the metadata decoder for the three picked
fields; a missing field is none. -/
structure ExifData where
  DateTimeOriginal : Option JSVal
  CreateDate : Option JSVal
  ModifyDate : Option JSVal
deriving DecidableEq

/-- JavaScript truthiness of an optionally-chained field access:
undefined (none) is falsy, otherwise the value decides. -/
def jsTruthy : Option JSVal → Bool
  | none => false
  | some v => v.truthy

/-- The timestamp extractImageMetadata resolves to: either the Date
constructed from a metadata field value, or the current wall-clock
Date constructed with no argument. -/
inductive ResolvedInstant where
  | parsed (v : JSVal)
  | wallClock
deriving DecidableEq

/-- extractImageMetadata from src/App.tsx, as a function of the outcome
of the external exifr.parse call: error if parse threw, ok none if it
returned undefined, ok (some e) if it returned a field record. Returns
the resolved instant together with the usedFallback flag. -/
def extractImageMetadata (parseResult : Except Unit (Option ExifData)) :
    ResolvedInstant × Bool :=
  match parseResult with
  | .error _ => (.wallClock, true)
  | .ok exifData =>
    let dto := exifData.bind fun e => e.DateTimeOriginal
    let cd := exifData.bind fun e => e.CreateDate
    let md := exifData.bind fun e => e.ModifyDate
    if jsTruthy dto then (.parsed (dto.getD (.num 0)), false)
    else if jsTruthy cd then (.parsed (cd.getD (.num 0)), false)
    else if jsTruthy md then (.parsed (md.getD (.num 0)), false)
    else (.wallClock, true)

/-- The four overlay positions of the configuration. -/
inductive Position where
  | bottomRight
  | bottomLeft
  | topRight
  | topLeft
deriving DecidableEq

/-- ImageConfig from src/types/config.ts (that file is absent from the
snapshot; the fields are exactly those read by src/App.tsx and the
components, matching the StyleConfig of the spec). Numeric fields are
rationals, standing for JavaScript numbers. -/
structure ImageConfig where
  fontSize : ℚ
  fontFamily : String
  fontColor : String
  strokeColor : String
  strokeWidth : ℚ
  position : Position
  offsetX : ℚ
  offsetY : ℚ
  dateFormat : String
  dropShadowEnabled : Bool
  dropShadowBlur : ℚ
  dropShadowOffsetX : ℚ
  dropShadowOffsetY : ℚ
  dropShadowColor : String
deriving DecidableEq

/-- The effective font size computed by processImage in src/App.tsx:
Math.max(Math.min(config.fontSize, img.width / 10), 24). -/
def relativeFontSize (fontSize imgWidth : ℚ) : ℚ :=
  max (min fontSize (imgWidth / 10)) 24

/-- The draw anchor computed by the position switch of processImage in
src/App.tsx, given the measured text width and the effective font
size. -/
def computeAnchor (position : Position)
    (imgWidth imgHeight textWidth fontSize offsetX offsetY : ℚ) : ℚ × ℚ :=
  match position with
  | .bottomRight => (imgWidth - textWidth - offsetX, imgHeight - offsetY)
  | .bottomLeft => (offsetX, imgHeight - offsetY)
  | .topRight => (imgWidth - textWidth - offsetX, fontSize + offsetY)
  | .topLeft => (offsetX, fontSize + offsetY)

/-- The mutable fields of the 2D canvas context that the overlay
drawing code touches. -/
structure CtxState where
  shadowBlur : ℚ
  shadowOffsetX : ℚ
  shadowOffsetY : ℚ
  shadowColor : String
  strokeStyle : String
  lineWidth : ℚ
  lineJoin : String
  fillStyle : String
deriving DecidableEq

/-- The canvas context defaults: zero shadow, transparent black shadow
color, miter joins, black stroke and fill. -/
def initialCtx : CtxState :=
  ⟨0, 0, 0, "rgba(0, 0, 0, 0)", "#000000", 1, "miter", "#000000"⟩

/-- A text draw call recorded together with the context state in force
when it was issued. -/
inductive DrawCall where
  | strokeTextCall (ctx : CtxState) (text : String) (x y : ℚ)
  | fillTextCall (ctx : CtxState) (text : String) (x y : ℚ)
deriving DecidableEq

/-- The context state a draw call was issued under. -/
def DrawCall.ctxOf : DrawCall → CtxState
  | .strokeTextCall c _ _ _ => c
  | .fillTextCall c _ _ _ => c

/-- Whether a draw call is a fill pass. -/
def DrawCall.isFill : DrawCall → Bool
  | .fillTextCall _ _ _ _ => true
  | .strokeTextCall _ _ _ _ => false

/-- Whether a draw call is a stroke pass. -/
def DrawCall.isStroke : DrawCall → Bool
  | .fillTextCall _ _ _ _ => false
  | .strokeTextCall _ _ _ _ => true

/-- The text layer sequence of processImage in src/App.tsx (lines
100-123): optionally configure the drop shadow, stroke the text when
strokeWidth is positive, reset shadow blur and offsets, then fill.
Returns the issued draw calls in order. -/
def drawOverlay (config : ImageConfig) (timestamp : String) (x y : ℚ) :
    List DrawCall :=
  let ctx0 := initialCtx
  let ctx1 :=
    if config.dropShadowEnabled then
      { ctx0 with
        shadowBlur := config.dropShadowBlur,
        shadowOffsetX := config.dropShadowOffsetX,
        shadowOffsetY := config.dropShadowOffsetY,
        shadowColor := config.dropShadowColor }
    else ctx0
  let strokePass : List DrawCall × CtxState :=
    if 0 < config.strokeWidth then
      let ctx2 :=
        { ctx1 with
          strokeStyle := config.strokeColor,
          lineWidth := config.strokeWidth,
          lineJoin := "round" }
      ([DrawCall.strokeTextCall ctx2 timestamp x y], ctx2)
    else ([], ctx1)
  let ctx3 :=
    { strokePass.2 with
      shadowBlur := 0, shadowOffsetX := 0, shadowOffsetY := 0 }
  let ctx4 := { ctx3 with fillStyle := config.fontColor }
  strokePass.1 ++ [DrawCall.fillTextCall ctx4 timestamp x y]

/-- The lifecycle states of a ProcessedImage in src/App.tsx. -/
inductive ItemStatus where
  | processing
  | done
  | error
deriving DecidableEq

/-- The successful result of processImage for one file. -/
structure ProcResult where
  url : String
  timestamp : String
  usedFallback : Bool
deriving DecidableEq

deriving instance DecidableEq for Except

/-- One submitted file as the orchestrator sees it: the generated id,
the file name, and the outcome its processImage run will have. -/
structure WorkItemIn where
  id : Nat
  originalName : String
  outcome : Except Unit ProcResult
deriving DecidableEq

/-- The ProcessedImage record of src/App.tsx. -/
structure PImage where
  id : Nat
  originalName : String
  processedUrl : String
  timestamp : String
  usedFallback : Bool
  status : ItemStatus
deriving DecidableEq

/-- The placeholder record handleFiles creates synchronously for a
file before processing starts. -/
def initImage (it : WorkItemIn) : PImage :=
  ⟨it.id, it.originalName, "", "", false, .processing⟩

/-- The successful setImages update of handleFiles: the matching item
gets the result url, timestamp, fallback flag and status done. -/
def updateDone (imgs : List PImage) (imageId : Nat) (r : ProcResult) :
    List PImage :=
  imgs.map fun img =>
    if img.id = imageId then
      { img with
        processedUrl := r.url,
        timestamp := r.timestamp,
        usedFallback := r.usedFallback,
        status := .done }
    else img

/-- The catch-branch setImages update of handleFiles: the matching item
gets status error, nothing else changes. -/
def updateFailed (imgs : List PImage) (imageId : Nat) : List PImage :=
  imgs.map fun img =>
    if img.id = imageId then { img with status := .error } else img

/-- One iteration of the handleFiles processing loop for one file. -/
def stepItem (imgs : List PImage) (it : WorkItemIn) : List PImage :=
  match it.outcome with
  | .ok r => updateDone imgs it.id r
  | .error _ => updateFailed imgs it.id

/-- The sequential handleFiles loop over the submitted files. -/
def processLoop (items : List WorkItemIn) (imgs : List PImage) :
    List PImage :=
  items.foldl stepItem imgs

/-- The full handleFiles run: create all placeholders, then process
the files one by one in submission order. -/
def handleFilesRun (items : List WorkItemIn) : List PImage :=
  processLoop items (items.map initImage)

/-- The collection state after the first k loop iterations. -/
def stateAfter (items : List WorkItemIn) (k : Nat) : List PImage :=
  processLoop (items.take k) (items.map initImage)

/-- The terminal record an item ends in, determined by its own
processImage outcome alone. -/
def finalizeItem (it : WorkItemIn) : PImage :=
  match it.outcome with
  | .ok r => ⟨it.id, it.originalName, r.url, r.timestamp, r.usedFallback, .done⟩
  | .error _ => ⟨it.id, it.originalName, "", "", false, .error⟩

/-- The state update stepItem applies to the item with the matching
id. -/
def applyOutcome (img : PImage) (it : WorkItemIn) : PImage :=
  match it.outcome with
  | .ok r =>
      { img with
        processedUrl := r.url,
        timestamp := r.timestamp,
        usedFallback := r.usedFallback,
        status := .done }
  | .error _ => { img with status := .error }

/-- handleClearAll from src/App.tsx: revoke the object URL of every
image whose processedUrl is truthy (JavaScript: nonempty), in list
order, then replace the collection with the empty list. Returns the
revoked URLs and the new collection. -/
def handleClearAll (imgs : List PImage) : List String × List PImage :=
  (imgs.filterMap fun img =>
    if img.processedUrl ≠ "" then some img.processedUrl else none, [])

/-- 2024-04-05T10:00:00, an April morning. -/
def dApril : JSDate := ⟨2024, 3, 5, 10, 0, 0⟩

/-- 2024-03-05T00:00:00, midnight in March. -/
def dMarchMidnight : JSDate := ⟨2024, 2, 5, 0, 0, 0⟩

/-- 2024-03-05T09:07:03, the timestamp of the first spec example. -/
def dMarch5 : JSDate := ⟨2024, 2, 5, 9, 7, 3⟩

/-- 2024-01-01T00:30:00, the timestamp of the second spec example. -/
def dJan1 : JSDate := ⟨2024, 0, 1, 0, 30, 0⟩

/-- 2024-01-01T12:00:00, noon. -/
def dNoon : JSDate := ⟨2024, 0, 1, 12, 0, 0⟩

/-- A configuration with the drop shadow enabled in red and a positive
stroke width. -/
def cfgShadow : ImageConfig :=
  { fontSize := 120
    fontFamily := "Instrument Sans"
    fontColor := "#FBBF24"
    strokeColor := "#000000"
    strokeWidth := 5
    position := .bottomRight
    offsetX := 20
    offsetY := 20
    dateFormat := "YYYY-MM-DD HH:mm:ss"
    dropShadowEnabled := true
    dropShadowBlur := 8
    dropShadowOffsetX := 2
    dropShadowOffsetY := 2
    dropShadowColor := "#ff0000" }

/-- Five submitted files of which exactly the third fails to
process. -/
def itemsFive : List WorkItemIn :=
  [⟨1, "a.jpg", .ok ⟨"blob:a", "2024-01-01", false⟩⟩,
   ⟨2, "b.jpg", .ok ⟨"blob:b", "2024-01-02", false⟩⟩,
   ⟨3, "c.jpg", .error ()⟩,
   ⟨4, "d.jpg", .ok ⟨"blob:d", "2024-01-04", true⟩⟩,
   ⟨5, "e.jpg", .ok ⟨"blob:e", "2024-01-05", false⟩⟩]

/-- Metadata carrying only a creation-time field. -/
def exifOnlyCreate : ExifData :=
  ⟨none, some (.str "2023:06:01 12:00:00"), none⟩

/-- Metadata whose capture-original-time is present but falsy (0) and
whose creation-time is a usable string. -/
def exifFalsyFirst : ExifData :=
  ⟨some (.num 0), some (.str "2023:06:01 12:00:00"), none⟩

/-- Metadata whose three fields are all present but falsy. -/
def exifAllFalsy : ExifData :=
  ⟨some (.num 0), some (.str ""), some (.num 0)⟩

/-- The token vocabulary in the order formatDate substitutes it. -/
def TOKENS : List String :=
  ["YYYY", "MMMM", "MMM", "MM", "DD", "HH", "hh", "mm", "ss", "A"]

theorem listReplaceFirst_eq_self (p r s : List Char)
    (h : containsSub s p = false) : listReplaceFirst p r s = s := by
  induction s with
  | nil =>
    simp only [containsSub] at h
    simp [listReplaceFirst, h]
  | cons c t ih =>
    simp only [containsSub, Bool.or_eq_false_iff] at h
    simp [listReplaceFirst, h.1, ih h.2]

theorem jsReplace_eq_self (s pat rep : String)
    (h : containsSub s.data pat.data = false) : jsReplace s pat rep = s := by
  unfold jsReplace
  rw [listReplaceFirst_eq_self _ _ _ h]

theorem listReplaceFirst_of_startsWith (p r s : List Char)
    (h : p.isPrefixOf s = true) :
    listReplaceFirst p r s = r ++ s.drop p.length := by
  cases s with
  | nil => simp [listReplaceFirst, h]
  | cons c t => simp [listReplaceFirst, h]

theorem jsReplace_head (s pat rep : String)
    (h : pat.data.isPrefixOf s.data = true) :
    jsReplace s pat rep = rep ++ String.mk (s.data.drop pat.data.length) := by
  unfold jsReplace
  rw [listReplaceFirst_of_startsWith _ _ _ h]
  rfl

theorem string_append_mk_nil (s : String) : s ++ String.mk [] = s := by
  obtain ⟨l⟩ := s
  show String.mk (l ++ []) = String.mk l
  rw [List.append_nil]

theorem mem_of_containsSub (s p : List Char) (h : containsSub s p = true) :
    ∀ c ∈ p, c ∈ s := by
  induction s with
  | nil =>
    intro c hc
    simp only [containsSub] at h
    rw [ List.isPrefixOf_iff_prefix] at h
    rw [List.prefix_nil.mp h] at hc
    exact absurd hc (List.not_mem_nil c)
  | cons a t ih =>
    intro c hc
    simp only [containsSub, Bool.or_eq_true] at h
    rcases h with h | h
    · rw [ List.isPrefixOf_iff_prefix] at h
      exact h.sublist.subset hc
    · exact List.mem_cons_of_mem a (ih h c hc)

theorem not_contains_of_witness (s p : List Char) (c : Char) (hc : c ∈ p)
    (hs : c ∉ s) : containsSub s p = false := by
  cases h : containsSub s p
  · rfl
  · exact absurd (mem_of_containsSub s p h c hc) hs

theorem digitChar_isDigit (m : Nat) (h : m < 10) :
    (Nat.digitChar m).isDigit = true := by
  interval_cases m <;> decide

theorem toDigitsCore_digits (fuel : Nat) :
    ∀ (n : Nat) (acc : List Char), (∀ c ∈ acc, c.isDigit = true) →
      ∀ c ∈ Nat.toDigitsCore 10 fuel n acc, c.isDigit = true := by
  induction fuel with
  | zero =>
    intro n acc hacc c hc
    exact hacc c hc
  | succ f ih =>
    intro n acc hacc c hc
    have hd : ∀ x ∈ Nat.digitChar (n % 10) :: acc, x.isDigit = true := by
      intro x hx
      rcases List.mem_cons.mp hx with hx | hx
      · rw [hx]
        exact digitChar_isDigit _ (Nat.mod_lt _ (by norm_num))
      · exact hacc x hx
    rw [Nat.toDigitsCore] at hc
    by_cases h0 : n / 10 = 0
    · rw [if_pos h0] at hc
      exact hd c hc
    · rw [if_neg h0] at hc
      exact ih _ _ hd c hc

theorem repr_chars_digit (n : Nat) :
    ∀ c ∈ (Nat.repr n).data, c.isDigit = true := by
  intro c hc
  exact toDigitsCore_digits (n + 1) n []
    (fun x hx => absurd hx (List.not_mem_nil x)) c hc

theorem formatDate_single_pass_chain (d : JSDate) (s u : String)
    (h : ∀ tok ∈ TOKENS.drop 1, containsSub u.data tok.data = false)
    (hs : jsReplace s "YYYY" (Nat.repr d.getFullYear) = u) :
    formatDate d s = u := by
  simp only [formatDate]
  rw [hs,
    jsReplace_eq_self _ _ _ (h "MMMM" (by simp [TOKENS])),
    jsReplace_eq_self _ _ _ (h "MMM" (by simp [TOKENS])),
    jsReplace_eq_self _ _ _ (h "MM" (by simp [TOKENS])),
    jsReplace_eq_self _ _ _ (h "DD" (by simp [TOKENS])),
    jsReplace_eq_self _ _ _ (h "HH" (by simp [TOKENS])),
    jsReplace_eq_self _ _ _ (h "hh" (by simp [TOKENS])),
    jsReplace_eq_self _ _ _ (h "mm" (by simp [TOKENS])),
    jsReplace_eq_self _ _ _ (h "ss" (by simp [TOKENS])),
    jsReplace_eq_self _ _ _ (h "A" (by simp [TOKENS]))]

theorem containsSub_year_space_yyyy (y : Nat) (p : List Char) (c : Char)
    (hcp : c ∈ p) (hdig : c.isDigit = false)
    (hny : c ∈ ([' ', 'Y', 'Y', 'Y', 'Y'] : List Char) → False) :
    containsSub ((Nat.repr y).data ++ [' ', 'Y', 'Y', 'Y', 'Y']) p = false := by
  apply not_contains_of_witness _ _ c hcp
  intro hin
  rcases List.mem_append.mp hin with hin | hin
  · rw [repr_chars_digit y c hin] at hdig
    exact Bool.noConfusion hdig
  · exact hny hin

theorem formatDate_yyyy_yyyy (d : JSDate) :
    formatDate d "YYYY YYYY" = Nat.repr d.getFullYear ++ " YYYY" := by
  apply formatDate_single_pass_chain d _ _ _ rfl
  intro tok htok
  fin_cases htok
  · exact containsSub_year_space_yyyy _ _ 'M' (by decide) (by decide) (by decide)
  · exact containsSub_year_space_yyyy _ _ 'M' (by decide) (by decide) (by decide)
  · exact containsSub_year_space_yyyy _ _ 'M' (by decide) (by decide) (by decide)
  · exact containsSub_year_space_yyyy _ _ 'D' (by decide) (by decide) (by decide)
  · exact containsSub_year_space_yyyy _ _ 'H' (by decide) (by decide) (by decide)
  · exact containsSub_year_space_yyyy _ _ 'h' (by decide) (by decide) (by decide)
  · exact containsSub_year_space_yyyy _ _ 'm' (by decide) (by decide) (by decide)
  · exact containsSub_year_space_yyyy _ _ 's' (by decide) (by decide) (by decide)
  · exact containsSub_year_space_yyyy _ _ 'A' (by decide) (by decide) (by decide)

/-- C2 counterexample: in the format string MMMMh the final h matches no
token (in particular hh does not occur in the format), yet it is not
passed through verbatim: at midnight in March the month substitution
produces Marchh, whose hh is then consumed by the 12-hour-token
replacement, so the output Marc12 contains no h at all. -/
theorem formatDate_literal_not_verbatim :
    formatDate dMarchMidnight "MMMMh" = "Marc12"
    ∧ containsSub ("MMMMh").data ("hh").data = false
    ∧ ('h' ∈ ("MMMMh").data)
    ∧ ('h' ∉ ("Marc12").data) := by
  exact ⟨by decide, by decide, by decide, by decide⟩

/-- C2 (amended): render is the identity on format strings containing
no occurrence of any token, for every timestamp; a non-token substring
is passed through verbatim only as long as no earlier substitution
creates a new token match adjoining it. -/
theorem formatDate_id_of_no_token (d : JSDate) (s : String)
    (h : ∀ tok ∈ TOKENS, containsSub s.data tok.data = false) :
    formatDate d s = s := by
  simp only [formatDate]
  rw [jsReplace_eq_self _ _ _ (h "YYYY" (by simp [TOKENS])),
    jsReplace_eq_self _ _ _ (h "MMMM" (by simp [TOKENS])),
    jsReplace_eq_self _ _ _ (h "MMM" (by simp [TOKENS])),
    jsReplace_eq_self _ _ _ (h "MM" (by simp [TOKENS])),
    jsReplace_eq_self _ _ _ (h "DD" (by simp [TOKENS])),
    jsReplace_eq_self _ _ _ (h "HH" (by simp [TOKENS])),
    jsReplace_eq_self _ _ _ (h "hh" (by simp [TOKENS])),
    jsReplace_eq_self _ _ _ (h "mm" (by simp [TOKENS])),
    jsReplace_eq_self _ _ _ (h "ss" (by simp [TOKENS])),
    jsReplace_eq_self _ _ _ (h "A" (by simp [TOKENS]))]

/-- C2 witness: hello world contains no token and renders unchanged. -/
theorem formatDate_id_of_no_token_witness :
    (∀ tok ∈ TOKENS, containsSub ("hello world").data tok.data = false)
    ∧ formatDate dApril "hello world" = "hello world" :=
  ⟨by decide, formatDate_id_of_no_token dApril "hello world" (by decide)⟩

/-- C1 counterexample: on the format MMMM A in April the code does not
replace the format string's (unique, leftmost) occurrence of the token
A; instead the A pass consumes the A of the substituted month name
April, giving AMpril A, while the substitution procedure described by
the claim gives April AM. -/
theorem formatDate_not_leftmost_token :
    formatDate dApril "MMMM A" = "AMpril A"
    ∧ renderSpec dApril "MMMM A" = "April AM"
    ∧ formatDate dApril "MMMM A" ≠ renderSpec dApril "MMMM A" := by
  exact ⟨by decide, by decide, by decide⟩

/-- C1 (amended): each token kind is substituted at most once, by ten
sequential first-occurrence replacements in the order YYYY, MMMM, MMM,
MM, DD, HH, hh, mm, ss, A (so the longer month tokens are tried before
the shorter ones), but each replacement operates on the
already-substituted string, so the occurrence it replaces can lie
inside the output of an earlier substitution (the A of a substituted
month name) instead of the format string's own leftmost token
occurrence. Repeated tokens: only the leftmost copy is substituted and
the later copies stay literal. -/
theorem formatDate_sequential_single_substitution (d : JSDate) :
    (formatDate d "A A" =
      (if 12 ≤ d.getHours then "PM" else "AM") ++ " A")
    ∧ (formatDate d "YYYY YYYY" = Nat.repr d.getFullYear ++ " YYYY")
    ∧ (d.getHours < 24 →
        formatDate d "hh hh" =
          padTwo (if d.getHours % 12 = 0 then 12 else d.getHours % 12)
            ++ " hh")
    ∧ (d.getMonth < 12 →
        formatDate d "MMMM" =
          jsReplace (MONTH_NAMES.getD d.getMonth "undefined") "A"
            (if 12 ≤ d.getHours then "PM" else "AM")
        ∧ formatDate d "MMM" =
          jsReplace (MONTH_SHORT.getD d.getMonth "undefined") "A"
            (if 12 ≤ d.getHours then "PM" else "AM")
        ∧ formatDate d "MM" = padTwo (d.getMonth + 1)) := by
  obtain ⟨y, mo, da, hr, mi, se⟩ := d
  refine ⟨rfl, formatDate_yyyy_yyyy _, ?_, ?_⟩
  · intro h
    have h2 : hr < 24 := h
    interval_cases hr <;>
      simp +decide [formatDate, jsReplace_eq_self, jsReplace_head]
  · intro h
    have h2 : mo < 12 := h
    interval_cases mo <;> refine ⟨?_, ?_, ?_⟩ <;>
      simp +decide [formatDate, jsReplace_eq_self, jsReplace_head,
        MONTH_NAMES, MONTH_SHORT, List.getD, string_append_mk_nil]

/-- C1 amended witness: the amended behavior at the concrete date
2024-04-05T10:00:00. -/
theorem formatDate_sequential_single_substitution_witness :
    formatDate dApril "A A" = "AM A"
    ∧ formatDate dApril "YYYY YYYY" = "2024 YYYY"
    ∧ (dApril.getHours < 24 ∧ formatDate dApril "hh hh" = "10 hh")
    ∧ (dApril.getMonth < 12 ∧ formatDate dApril "MM" = "04") := by
  have h := formatDate_sequential_single_substitution dApril
  exact ⟨h.1.trans (by decide), (h.2.1).trans (by decide),
    ⟨by decide, (h.2.2.1 (by decide)).trans (by decide)⟩,
    ⟨by decide, ((h.2.2.2 (by decide)).2.2).trans (by decide)⟩⟩

/-- C3: the two spec examples render exactly as stated, the hh token
renders 12 at noon and midnight, and the A token renders AM strictly
before noon and PM from noon onward. -/
theorem formatDate_vocabulary_examples :
    formatDate dMarch5 "YYYY-MM-DD HH:mm:ss" = "2024-03-05 09:07:03"
    ∧ formatDate dJan1 "hh:mm A" = "12:30 AM"
    ∧ (∀ d : JSDate, d.getHours = 0 ∨ d.getHours = 12 →
        formatDate d "hh" = "12")
    ∧ (∀ d : JSDate, d.getHours < 12 → formatDate d "A" = "AM")
    ∧ (∀ d : JSDate, 12 ≤ d.getHours → formatDate d "A" = "PM") := by
  refine ⟨by decide, by decide, ?_, ?_, ?_⟩
  · rintro ⟨y, mo, da, hr, mi, se⟩ (h | h)
    · have h2 : hr = 0 := h
      subst h2
      simp +decide [formatDate, jsReplace_eq_self, jsReplace_head]
    · have h2 : hr = 12 := h
      subst h2
      simp +decide [formatDate, jsReplace_eq_self, jsReplace_head]
  · rintro ⟨y, mo, da, hr, mi, se⟩ h
    have h2 : hr < 12 := h
    have e : formatDate ⟨y, mo, da, hr, mi, se⟩ "A" =
        String.mk ((if 12 ≤ hr then "PM" else "AM").data ++ []) := rfl
    rw [e, if_neg (by omega)]
    rfl
  · rintro ⟨y, mo, da, hr, mi, se⟩ h
    have h2 : 12 ≤ hr := h
    have e : formatDate ⟨y, mo, da, hr, mi, se⟩ "A" =
        String.mk ((if 12 ≤ hr then "PM" else "AM").data ++ []) := rfl
    rw [e, if_pos h2]
    rfl

/-- C3 witness: the hypotheses of the general parts discharged at
midnight (dJan1) and at noon (dNoon). -/
theorem formatDate_vocabulary_examples_witness :
    (dJan1.getHours = 0 ∨ dJan1.getHours = 12)
    ∧ formatDate dJan1 "hh" = "12"
    ∧ dJan1.getHours < 12 ∧ formatDate dJan1 "A" = "AM"
    ∧ 12 ≤ dNoon.getHours ∧ formatDate dNoon "A" = "PM" := by
  have h := formatDate_vocabulary_examples
  exact ⟨by decide, h.2.2.1 dJan1 (by decide), by decide,
    h.2.2.2.1 dJan1 (by decide), by decide, h.2.2.2.2 dNoon (by decide)⟩

theorem jsTruthy_some (v : JSVal) : jsTruthy (some v) = v.truthy := rfl

theorem jsTruthy_none : jsTruthy none = false := rfl

/-- C4: metadata resolution is total and tries DateTimeOriginal, then
CreateDate, then ModifyDate, returning the first field that passes the
presence check with isFallback = false; a thrown parse, an undefined
parse result, or no field passing the check all yield the wall-clock
fallback with isFallback = true. -/
theorem extract_metadata_priority (parseResult : Except Unit (Option ExifData)) :
    (parseResult = .error () →
      extractImageMetadata parseResult = (.wallClock, true))
    ∧ (parseResult = .ok none →
      extractImageMetadata parseResult = (.wallClock, true))
    ∧ (∀ e v, parseResult = .ok (some e) → e.DateTimeOriginal = some v →
        v.truthy = true →
        extractImageMetadata parseResult = (.parsed v, false))
    ∧ (∀ e v, parseResult = .ok (some e) →
        jsTruthy e.DateTimeOriginal = false → e.CreateDate = some v →
        v.truthy = true →
        extractImageMetadata parseResult = (.parsed v, false))
    ∧ (∀ e v, parseResult = .ok (some e) →
        jsTruthy e.DateTimeOriginal = false → jsTruthy e.CreateDate = false →
        e.ModifyDate = some v → v.truthy = true →
        extractImageMetadata parseResult = (.parsed v, false))
    ∧ (∀ e, parseResult = .ok (some e) →
        jsTruthy e.DateTimeOriginal = false → jsTruthy e.CreateDate = false →
        jsTruthy e.ModifyDate = false →
        extractImageMetadata parseResult = (.wallClock, true)) := by
  refine ⟨?_, ?_, ?_, ?_, ?_, ?_⟩
  · intro h; subst h; rfl
  · intro h; subst h; rfl
  · intro e v hp hf ht; subst hp
    simp [extractImageMetadata, Option.bind, hf, jsTruthy_some, ht]
  · intro e v hp h1 hf ht; subst hp
    simp [extractImageMetadata, Option.bind, h1, hf, jsTruthy_some, ht]
  · intro e v hp h1 h2 hf ht; subst hp
    simp [extractImageMetadata, Option.bind, h1, h2, hf, jsTruthy_some, ht]
  · intro e hp h1 h2 h3; subst hp
    simp [extractImageMetadata, Option.bind, h1, h2, h3]

/-- C4 witness: the priority branches at concrete inputs: a thrown
parse, metadata with only a creation time, and an undefined result. -/
theorem extract_metadata_priority_witness :
    extractImageMetadata (.error ()) = (.wallClock, true)
    ∧ (exifOnlyCreate.CreateDate = some (.str "2023:06:01 12:00:00")
        ∧ (JSVal.str "2023:06:01 12:00:00").truthy = true
        ∧ jsTruthy exifOnlyCreate.DateTimeOriginal = false
        ∧ extractImageMetadata (.ok (some exifOnlyCreate)) =
            (.parsed (.str "2023:06:01 12:00:00"), false))
    ∧ extractImageMetadata (.ok none) = (.wallClock, true) := by
  refine ⟨(extract_metadata_priority (.error ())).1 rfl,
    ⟨by decide, by decide, by decide, ?_⟩,
    (extract_metadata_priority (.ok none)).2.1 rfl⟩
  exact (extract_metadata_priority (.ok (some exifOnlyCreate))).2.2.2.1
    exifOnlyCreate (.str "2023:06:01 12:00:00") rfl (by decide) rfl (by decide)

/-- C10: a metadata field that is present but falsy (the number 0 or
the empty string) behaves exactly as an absent field: resolution falls
through to the next field in priority order, and if every field is
falsy or missing the wall-clock fallback with isFallback = true is
returned. -/
theorem extract_falsy_is_absent :
    ((JSVal.num 0).truthy = false ∧ (JSVal.str "").truthy = false)
    ∧ (∀ e v, e.DateTimeOriginal = some v → v.truthy = false →
        extractImageMetadata (.ok (some e)) =
          extractImageMetadata (.ok (some { e with DateTimeOriginal := none })))
    ∧ (∀ e v, e.CreateDate = some v → v.truthy = false →
        extractImageMetadata (.ok (some e)) =
          extractImageMetadata (.ok (some { e with CreateDate := none })))
    ∧ (∀ e v, e.ModifyDate = some v → v.truthy = false →
        extractImageMetadata (.ok (some e)) =
          extractImageMetadata (.ok (some { e with ModifyDate := none })))
    ∧ (∀ e, jsTruthy e.DateTimeOriginal = false →
        jsTruthy e.CreateDate = false → jsTruthy e.ModifyDate = false →
        extractImageMetadata (.ok (some e)) = (.wallClock, true))
    ∧ extractImageMetadata (.ok (some exifFalsyFirst)) =
        (.parsed (.str "2023:06:01 12:00:00"), false)
    ∧ extractImageMetadata (.ok (some exifAllFalsy)) = (.wallClock, true) := by
  refine ⟨⟨by decide, by decide⟩, ?_, ?_, ?_, ?_, by decide, by decide⟩
  · intro e v hf ht
    simp [extractImageMetadata, Option.bind, hf, jsTruthy_some, jsTruthy_none, ht]
  · intro e v hf ht
    simp [extractImageMetadata, Option.bind, hf, jsTruthy_some, jsTruthy_none, ht]
  · intro e v hf ht
    simp [extractImageMetadata, Option.bind, hf, jsTruthy_some, jsTruthy_none, ht]
  · intro e h1 h2 h3
    simp [extractImageMetadata, Option.bind, h1, h2, h3]

/-- C10 witness: the fall-through hypotheses discharged at the concrete
records exifFalsyFirst and exifAllFalsy. -/
theorem extract_falsy_is_absent_witness :
    (exifFalsyFirst.DateTimeOriginal = some (.num 0)
      ∧ (JSVal.num 0).truthy = false
      ∧ extractImageMetadata (.ok (some exifFalsyFirst)) =
          extractImageMetadata
            (.ok (some { exifFalsyFirst with DateTimeOriginal := none })))
    ∧ (jsTruthy exifAllFalsy.DateTimeOriginal = false
      ∧ jsTruthy exifAllFalsy.CreateDate = false
      ∧ jsTruthy exifAllFalsy.ModifyDate = false
      ∧ extractImageMetadata (.ok (some exifAllFalsy)) = (.wallClock, true)) := by
  refine ⟨⟨by decide, by decide, ?_⟩, ⟨by decide, by decide, by decide, ?_⟩⟩
  · exact (extract_falsy_is_absent).2.1 exifFalsyFirst (.num 0) rfl (by decide)
  · exact (extract_falsy_is_absent).2.2.2.2.1 exifAllFalsy (by decide)
      (by decide) (by decide)

/-- C5: the effective font size is the configured size clamped to the
interval between 24 and a tenth of the surface width, with the lower
bound winning whenever width / 10 < 24; in particular a configured
size of 500 on a 240-pixel-wide surface yields 24. -/
theorem effective_font_size (fontSize W : ℚ) :
    relativeFontSize fontSize W = max (min fontSize (W / 10)) 24
    ∧ (W / 10 < 24 → relativeFontSize fontSize W = 24)
    ∧ (24 ≤ fontSize → fontSize ≤ W / 10 →
        relativeFontSize fontSize W = fontSize)
    ∧ (24 ≤ W / 10 → W / 10 ≤ fontSize →
        relativeFontSize fontSize W = W / 10)
    ∧ (fontSize < 24 → 24 ≤ W / 10 → relativeFontSize fontSize W = 24)
    ∧ relativeFontSize 500 240 = 24 := by
  refine ⟨rfl, ?_, ?_, ?_, ?_, by norm_num [relativeFontSize]⟩
  · intro h
    exact max_eq_right (le_of_lt (lt_of_le_of_lt (min_le_right _ _) h))
  · intro h1 h2
    unfold relativeFontSize
    rw [min_eq_left h2]
    exact max_eq_left h1
  · intro h1 h2
    unfold relativeFontSize
    rw [min_eq_right h2]
    exact max_eq_left h1
  · intro h1 h2
    unfold relativeFontSize
    rw [min_eq_left (le_trans (le_of_lt h1) h2)]
    exact max_eq_right (le_of_lt h1)

/-- C5 witness: the clamp branches at concrete numbers: 500 on a 240
wide surface collapses to 24, and 30 on a 400 wide surface stays 30. -/
theorem effective_font_size_witness :
    ((240 : ℚ) / 10 < 24 → False)
    ∧ relativeFontSize 500 240 = 24
    ∧ ((24 : ℚ) ≤ 30 ∧ (30 : ℚ) ≤ 400 / 10 ∧ relativeFontSize 30 400 = 30) := by
  refine ⟨by norm_num, (effective_font_size 500 240).2.2.2.2.2, ?_⟩
  exact ⟨by norm_num, by norm_num,
    (effective_font_size 30 400).2.2.1 (by norm_num) (by norm_num)⟩

/-- C6: the draw anchor is x = width - textWidth - offsetX for the
right-aligned positions and x = offsetX for the left-aligned ones;
y = height - offsetY for the bottom positions and
y = effectiveFontSize + offsetY for the top positions; on a 1000 by
1000 surface at bottomRight with offsets 20 the anchor x is
1000 - textWidth - 20. -/
theorem anchor_positions (pos : Position) (W H tw f ox oy : ℚ) :
    ((pos = .bottomRight ∨ pos = .topRight) →
      (computeAnchor pos W H tw f ox oy).1 = W - tw - ox)
    ∧ ((pos = .bottomLeft ∨ pos = .topLeft) →
      (computeAnchor pos W H tw f ox oy).1 = ox)
    ∧ ((pos = .bottomRight ∨ pos = .bottomLeft) →
      (computeAnchor pos W H tw f ox oy).2 = H - oy)
    ∧ ((pos = .topRight ∨ pos = .topLeft) →
      (computeAnchor pos W H tw f ox oy).2 = f + oy)
    ∧ (computeAnchor .bottomRight 1000 1000 tw f 20 20).1 = 1000 - tw - 20 := by
  refine ⟨?_, ?_, ?_, ?_, rfl⟩ <;> rintro (rfl | rfl) <;> rfl

/-- C6 witness: the anchor equations instantiated at the bottomRight
position on a 1000 by 1000 surface with text width 300, font size 40
and offsets 20. -/
theorem anchor_positions_witness :
    (Position.bottomRight = Position.bottomRight ∨
      Position.bottomRight = Position.topRight)
    ∧ (computeAnchor .bottomRight 1000 1000 300 40 20 20).1 = 1000 - 300 - 20
    ∧ (computeAnchor .bottomRight 1000 1000 300 40 20 20).2 = 1000 - 20 := by
  refine ⟨Or.inl rfl, ?_, ?_⟩
  · exact (anchor_positions .bottomRight 1000 1000 300 40 20 20).1 (Or.inl rfl)
  · exact (anchor_positions .bottomRight 1000 1000 300 40 20 20).2.2.1
      (Or.inl rfl)

/-- C7 counterexample: with the drop shadow enabled in the color
#ff0000 and a positive stroke width, the fill pass still carries
shadow color #ff0000: the code resets only blur and the two offsets
after the stroke draw, never the shadow color, so the shadow
parameters are not reset to a transparent neutral as the claim
states. -/
theorem overlay_shadow_color_not_reset :
    ((drawOverlay cfgShadow "2024-03-05 09:07:03" 10 20).filter
        DrawCall.isFill).map (fun c => c.ctxOf.shadowColor) = ["#ff0000"]
    ∧ cfgShadow.dropShadowEnabled = true
    ∧ 0 < cfgShadow.strokeWidth
    ∧ ("#ff0000" : String) ≠ "rgba(0, 0, 0, 0)" := by
  exact ⟨by decide, by decide, by decide, by decide⟩

/-- C7 (amended): layer order as in the code: when shadowEnabled the
shadow blur, offsets and color are configured before the stroke pass;
the stroke outline is drawn only when strokeWidth is positive, at that
width with round joins in strokeColor, and always precedes the fill;
immediately after the stroke draw the shadow blur and offsets (but not
the shadow color) are reset to zero, so the fill pass, while keeping
the configured shadow color, has a degenerate zero-blur zero-offset
shadow that coincides with the glyph instead of a visible detached
shadow. -/
theorem overlay_layer_order (config : ImageConfig) (ts : String) (x y : ℚ) :
    ((0 < config.strokeWidth →
        (drawOverlay config ts x y).map DrawCall.isFill = [false, true])
      ∧ (¬ 0 < config.strokeWidth →
        (drawOverlay config ts x y).map DrawCall.isFill = [true]))
    ∧ (∀ c ∈ drawOverlay config ts x y, c.isFill = true →
        c.ctxOf.shadowBlur = 0 ∧ c.ctxOf.shadowOffsetX = 0 ∧
        c.ctxOf.shadowOffsetY = 0 ∧ c.ctxOf.fillStyle = config.fontColor ∧
        c.ctxOf.shadowColor =
          (if config.dropShadowEnabled then config.dropShadowColor
           else initialCtx.shadowColor))
    ∧ (∀ c ∈ drawOverlay config ts x y, c.isStroke = true →
        0 < config.strokeWidth ∧ c.ctxOf.lineWidth = config.strokeWidth ∧
        c.ctxOf.lineJoin = "round" ∧ c.ctxOf.strokeStyle = config.strokeColor)
    ∧ (config.dropShadowEnabled = true →
        ∀ c ∈ drawOverlay config ts x y, c.isStroke = true →
        c.ctxOf.shadowBlur = config.dropShadowBlur ∧
        c.ctxOf.shadowOffsetX = config.dropShadowOffsetX ∧
        c.ctxOf.shadowOffsetY = config.dropShadowOffsetY ∧
        c.ctxOf.shadowColor = config.dropShadowColor)
    ∧ (config.dropShadowEnabled = false →
        ∀ c ∈ drawOverlay config ts x y,
        c.ctxOf.shadowColor = initialCtx.shadowColor) := by
  by_cases hs : 0 < config.strokeWidth <;>
    by_cases hd : config.dropShadowEnabled <;>
    simp [drawOverlay, hs, hd, DrawCall.isFill, DrawCall.isStroke,
      DrawCall.ctxOf, initialCtx]

/-- C7 amended witness:.the layer order at the concrete shadow-enabled
configuration cfgShadow. -/
theorem overlay_layer_order_witness :
    0 < cfgShadow.strokeWidth
    ∧ cfgShadow.dropShadowEnabled = true
    ∧ (drawOverlay cfgShadow "t" 1 2).map DrawCall.isFill = [false, true] := by
  refine ⟨by decide, by decide, ?_⟩
  exact (overlay_layer_order cfgShadow "t" 1 2).1.1 (by decide)

theorem stepItem_eq (imgs : List PImage) (it : WorkItemIn) :
    stepItem imgs it =
      imgs.map fun img =>
        if img.id = it.id then applyOutcome img it else img := by
  cases h : it.outcome <;>
    simp [stepItem, h, updateDone, updateFailed, applyOutcome]

theorem map_applyOutcome_of_ne (l : List PImage) (it : WorkItemIn)
    (h : ∀ img ∈ l, img.id ≠ it.id) :
    (l.map fun img => if img.id = it.id then applyOutcome img it else img)
      = l := by
  induction l with
  | nil => rfl
  | cons a t ih =>
    simp only [List.map_cons]
    rw [if_neg (h a (List.mem_cons_self a t)),
      ih fun img hm => h img (List.mem_cons_of_mem a hm)]

theorem applyOutcome_init (it : WorkItemIn) :
    applyOutcome (initImage it) it = finalizeItem it := by
  cases h : it.outcome <;> simp [applyOutcome, initImage, finalizeItem, h]

theorem finalizeItem_id (it : WorkItemIn) : (finalizeItem it).id = it.id := by
  cases h : it.outcome <;> simp [finalizeItem, h]

theorem processLoop_run :
    ∀ (toGo : List WorkItemIn) (pre post : List PImage),
      (toGo.map fun it => it.id).Nodup →
      (∀ it ∈ toGo, ∀ img ∈ pre, img.id ≠ it.id) →
      (∀ it ∈ toGo, ∀ img ∈ post, img.id ≠ it.id) →
      processLoop toGo (pre ++ toGo.map initImage ++ post) =
        pre ++ toGo.map finalizeItem ++ post := by
  intro toGo
  induction toGo with
  | nil => intro pre post _ _ _; simp [processLoop]
  | cons it rest ih =>
    intro pre post hnd hpre hpost
    simp only [List.map_cons] at hnd
    have hhead : it.id ∉ rest.map fun x => x.id :=
      (List.nodup_cons.mp hnd).1
    have htail : (rest.map fun x => x.id).Nodup :=
      (List.nodup_cons.mp hnd).2
    have hstep :
        stepItem (pre ++ (initImage it :: rest.map initImage) ++ post) it =
          pre ++ (finalizeItem it :: rest.map initImage) ++ post := by
      rw [stepItem_eq, List.map_append, List.map_append, List.map_cons]
      rw [map_applyOutcome_of_ne pre it (hpre it (List.mem_cons_self _ _)),
        map_applyOutcome_of_ne post it (hpost it (List.mem_cons_self _ _)),
        if_pos (show (initImage it).id = it.id from rfl), applyOutcome_init]
      have hrest :
          ((rest.map initImage).map fun img =>
            if img.id = it.id then applyOutcome img it else img)
            = rest.map initImage := by
        apply map_applyOutcome_of_ne
        intro img hm
        obtain ⟨r, hr, rfl⟩ := List.mem_map.mp hm
        intro heq
        exact hhead (heq ▸ List.mem_map_of_mem (fun x => x.id) hr)
      rw [hrest]
    have e1 : processLoop (it :: rest)
        (pre ++ (initImage it :: rest.map initImage) ++ post) =
        processLoop rest
          (stepItem (pre ++ (initImage it :: rest.map initImage) ++ post) it) :=
      rfl
    rw [show (it :: rest).map initImage = initImage it :: rest.map initImage
        from rfl, e1, hstep]
    have hassoc : pre ++ (finalizeItem it :: rest.map initImage) ++ post =
        (pre ++ [finalizeItem it]) ++ rest.map initImage ++ post := by
      simp
    rw [hassoc]
    rw [ih (pre ++ [finalizeItem it]) post htail ?hpre2 ?hpost2]
    · simp
    case hpre2 =>
      intro it2 hit2 img himg
      rcases List.mem_append.mp himg with himg | himg
      · exact hpre it2 (List.mem_cons_of_mem it hit2) img himg
      · have himg2 : img = finalizeItem it := by
          simpa using himg
        subst himg2
        rw [finalizeItem_id]
        intro heq
        exact hhead (heq ▸ List.mem_map_of_mem (fun x => x.id) hit2)
    case hpost2 =>
      intro it2 hit2 img himg
      exact hpost it2 (List.mem_cons_of_mem it hit2) img himg

theorem stateAfter_eq (items : List WorkItemIn) (k : Nat)
    (hnd : (items.map fun it => it.id).Nodup) :
    stateAfter items k =
      (items.take k).map finalizeItem ++ (items.drop k).map initImage := by
  have hids : items.map (fun it => it.id) =
      ((items.take k).map fun it => it.id)
        ++ ((items.drop k).map fun it => it.id) := by
    rw [← List.map_append, List.take_append_drop]
  rw [hids] at hnd
  rcases List.nodup_append.mp hnd with ⟨hnd1, hnd2, hdisj⟩
  unfold stateAfter
  have hsplit : items.map initImage =
      (items.take k).map initImage ++ (items.drop k).map initImage := by
    rw [← List.map_append, List.take_append_drop]
  rw [hsplit]
  have hrun := processLoop_run (items.take k) []
    ((items.drop k).map initImage) hnd1
    (by intro it _ img h; exact absurd h (List.not_mem_nil img))
    ?hpost
  · simpa using hrun
  case hpost =>
    intro it hit img himg
    obtain ⟨r, hr, rfl⟩ := List.mem_map.mp himg
    intro heq
    exact hdisj (List.mem_map_of_mem (fun x => x.id) hit)
      (heq ▸ List.mem_map_of_mem (fun x => x.id) hr)

/-- C8: with distinct generated ids, after any number k of loop steps
the first k submitted items are in the terminal state their own
outcome dictates and the rest still hold their placeholder, in
submission order; the full run maps every item to its own terminal
record (so one failure neither aborts nor blocks the others), and ids
stay in submission order. -/
theorem batch_independent_in_order (items : List WorkItemIn)
    (hnd : (items.map fun it => it.id).Nodup) :
    (∀ k, stateAfter items k =
      (items.take k).map finalizeItem ++ (items.drop k).map initImage)
    ∧ handleFilesRun items = items.map finalizeItem
    ∧ (∀ it ∈ items,
        (∀ u, it.outcome = .error u → (finalizeItem it).status = .error)
        ∧ (∀ r, it.outcome = .ok r → (finalizeItem it).status = .done))
    ∧ ((handleFilesRun items).map (fun img => img.id) =
        items.map fun it => it.id) := by
  have hrun : handleFilesRun items = items.map finalizeItem := by
    have h2 : handleFilesRun items = stateAfter items items.length := by
      unfold handleFilesRun stateAfter
      rw [List.take_length]
    rw [h2, stateAfter_eq items items.length hnd, List.take_length,
      List.drop_length]
    simp
  refine ⟨fun k => stateAfter_eq items k hnd, hrun, ?_, ?_⟩
  · intro it _
    constructor
    · intro u h; simp [finalizeItem, h]
    · intro r h; simp [finalizeItem, h]
  · rw [hrun, List.map_map]
    apply List.map_congr_left
    intro it _
    exact finalizeItem_id it

/-- C8 witness: five files with exactly the third failing: the run
ends with statuses done, done, error, done, done in submission
order. -/
theorem batch_independent_in_order_witness :
    (itemsFive.map fun it => it.id).Nodup
    ∧ handleFilesRun itemsFive = itemsFive.map finalizeItem
    ∧ (handleFilesRun itemsFive).map (fun img => img.status) =
        [.done, .done, .error, .done, .done] := by
  have h := (batch_independent_in_order itemsFive (by decide)).2.1
  refine ⟨by decide, h, ?_⟩
  rw [h]
  decide

/-- C9: every WorkItem starts as the processing placeholder with an
empty output url; with distinct ids, item j keeps its placeholder
through the first j loop steps and holds its terminal record from step
j + 1 on, so it is mutated exactly once, to done or to error, both
terminal; and clearing the batch collects the nonempty output url of
every item (in order) and empties the collection. -/
theorem workitem_lifecycle (items : List WorkItemIn)
    (hnd : (items.map fun it => it.id).Nodup) :
    (∀ it, (initImage it).status = .processing
      ∧ (initImage it).processedUrl = "")
    ∧ (∀ j, ∀ hj : j < items.length, ∀ k,
        (stateAfter items k)[j]? =
          some (if k ≤ j then initImage (items.get ⟨j, hj⟩)
                else finalizeItem (items.get ⟨j, hj⟩)))
    ∧ (∀ it, (finalizeItem it).status = .done
        ∨ (finalizeItem it).status = .error)
    ∧ (∀ imgs : List PImage, (handleClearAll imgs).2 = []
        ∧ ∀ img ∈ imgs, img.processedUrl ≠ "" →
            img.processedUrl ∈ (handleClearAll imgs).1) := by
  refine ⟨fun it => ⟨rfl, rfl⟩, ?_, ?_, ?_⟩
  · intro j hj k
    rw [stateAfter_eq items k hnd]
    by_cases hjk : j < k
    · have hlen : j < ((items.take k).map finalizeItem).length := by
        simp only [List.length_map, List.length_take]
        omega
      rw [List.getElem?_append_left hlen, List.getElem?_map,
        List.getElem?_take, if_pos hjk, List.getElem?_eq_getElem hj,
        if_neg (by omega)]
      simp [List.get_eq_getElem]
    · push_neg at hjk
      have hlen : ((items.take k).map finalizeItem).length ≤ j := by
        simp only [List.length_map, List.length_take]
        omega
      rw [List.getElem?_append_right hlen, List.getElem?_map,
        List.getElem?_drop]
      have hidx : k + (j - ((items.take k).map finalizeItem).length) = j := by
        simp only [List.length_map, List.length_take]
        omega
      rw [hidx, List.getElem?_eq_getElem hj, if_pos hjk]
      simp [List.get_eq_getElem]
  · intro it
    cases h : it.outcome
    · right; simp [finalizeItem, h]
    · left; simp [finalizeItem, h]
  · intro imgs
    refine ⟨rfl, ?_⟩
    intro img hm hne
    exact List.mem_filterMap.mpr ⟨img, hm, by simp [hne]⟩

/-- C9 witness: in the five-file batch, item 3 (index 2) still holds
its placeholder after two steps and holds its terminal error record
after three steps; clearing the finished batch empties the collection
and collects the done items' urls. -/
theorem workitem_lifecycle_witness :
    (itemsFive.map fun it => it.id).Nodup
    ∧ (2 < itemsFive.length ∧ 2 ≤ 2 ∧
        (stateAfter itemsFive 2)[2]? =
          some (initImage (itemsFive.get ⟨2, by decide⟩)))
    ∧ ((stateAfter itemsFive 3)[2]? =
          some (finalizeItem (itemsFive.get ⟨2, by decide⟩)))
    ∧ (handleClearAll (handleFilesRun itemsFive)).2 = []
    ∧ "blob:a" ∈ (handleClearAll (handleFilesRun itemsFive)).1 := by
  have h := workitem_lifecycle itemsFive (by decide)
  refine ⟨by decide, ⟨by decide, by decide, ?_⟩, ?_, ?_, ?_⟩
  · exact (h.2.1 2 (by decide) 2).trans (by decide)
  · exact (h.2.1 2 (by decide) 3).trans (by decide)
  · exact (h.2.2.2 (handleFilesRun itemsFive)).1
  · have hmem := (h.2.2.2 (handleFilesRun itemsFive)).2
      (finalizeItem ⟨1, "a.jpg", .ok ⟨"blob:a", "2024-01-01", false⟩⟩)
      (by decide) (by decide)
    exact hmem
